import Mathlib

/-
Verification of the metadata-database layer of a load-order optimisation
library. The embedded code comes from `src/api/api_database.cpp` and
`src/api/helpers/collections.h`; the metadata value types and the
`MetadataList` operations they call are modelled from the specification's
description of the metadata model, the metadata store and the document
oracle.
-/

namespace Loot

/-- Modelled from the spec: a file reference (load-after, requirement or
incompatibility entry) with an attached condition string; the C++ `File`
class is not part of the sources. -/
structure File where
  name : String
  displayName : String
  condition : String
deriving DecidableEq

/-- Modelled from the spec: a message with an attached condition string;
the C++ `Message` class is not part of the sources. -/
structure Message where
  mtype : String
  content : String
  condition : String
deriving DecidableEq

/-- Modelled from the spec: a Bash Tag suggestion (addition or removal)
with an attached condition string; the C++ `Tag` class is not part of the
sources. -/
structure Tag where
  name : String
  isAddition : Bool
  condition : String
deriving DecidableEq

/-- Modelled from the spec: dirty/clean plugin cleaning data, keyed by the
CRC of the plugin file; the C++ `PluginCleaningData` class is not part of
the sources. -/
structure PluginCleaningData where
  crc : Nat
  cleaningUtility : String
  itmCount : Nat
  deletedReferenceCount : Nat
  deletedNavmeshCount : Nat
deriving DecidableEq

/-- Modelled from the spec: a location where a plugin can be found; the
C++ `Location` class is not part of the sources. -/
structure Location where
  url : String
  name : String
deriving DecidableEq

/-- Modelled from the spec: a group has a name, a description and an
ordered list of after-group names; the C++ `Group` class is not part of
the sources. -/
structure Group where
  name : String
  description : String
  afterGroups : List String
deriving DecidableEq

/-- Modelled from the spec: a metadata entry for a plugin, whose name may
be a literal filename or a regular expression, with optional group,
load-after files, requirements, incompatibilities, messages, tag
suggestions, dirty/clean info and locations; the C++ `PluginMetadata`
class is not part of the sources. -/
structure PluginMetadata where
  name : String
  group : Option String
  loadAfter : List File
  requirements : List File
  incompatibilities : List File
  messages : List Message
  tags : List Tag
  dirtyInfo : List PluginCleaningData
  cleanInfo : List PluginCleaningData
  locations : List Location
deriving DecidableEq

/-- Modelled from the spec: the structured result of the metadata document
oracle, and the shape of a metadata store: plugin entries, groups, known
Bash Tag names and general messages; the C++ `MetadataList` class is not
part of the sources. -/
structure MetadataList where
  plugins : List PluginMetadata
  groups : List Group
  bashTags : List String
  messages : List Message
deriving DecidableEq

/-- The database façade holds two independent metadata stores, following
`ApiDatabase`'s `masterlist_` and `userlist_` members in
`src/api/api_database.cpp`. -/
structure ApiDatabase where
  masterlist : MetadataList
  userlist : MetadataList
deriving DecidableEq

/-- Embedding of `loot::mergeVectors` from `src/api/helpers/collections.h`:
append `second` to `first`, skipping any elements already present in the
original `first` (the membership test uses `first.cbegin()` up to the
initial size of `first`, so it only ever sees the original elements). -/
def mergeVectors {α : Type} [DecidableEq α] (first second : List α) : List α :=
  second.foldl (fun acc element => if element ∈ first then acc else acc ++ [element]) first

theorem mergeVectors_foldl {α : Type} [DecidableEq α] (first : List α) :
    ∀ (second acc : List α),
      second.foldl (fun acc element => if element ∈ first then acc else acc ++ [element]) acc
        = acc ++ second.filter (fun e => decide (e ∉ first)) := by
  intro second
  induction second with
  | nil => intro acc; simp
  | cons x xs ih =>
    intro acc
    by_cases hx : x ∈ first
    · simp [List.foldl_cons, hx, ih]
    · simp [List.foldl_cons, hx, ih]

theorem mergeVectors_eq_append_filter {α : Type} [DecidableEq α]
    (first second : List α) :
    mergeVectors first second = first ++ second.filter (fun e => decide (e ∉ first)) :=
  mergeVectors_foldl first second first

/-- C8: `mergeVectors(first, second)` returns `first` unchanged as a prefix
followed by exactly those elements of `second` absent from the original
`first`, in their order of appearance in `second`; membership is tested
only against the original `first`, so the number of occurrences of any
element `e` in the result is its count in `first` plus, when `e` is not in
`first`, its count in `second` (so repeated new elements of `second` stay
repeated); and `mergeVectors(v, v) = v`. -/
theorem mergeVectors_spec {α : Type} [DecidableEq α] :
    (∀ first second : List α,
        mergeVectors first second
          = first ++ second.filter (fun e => decide (e ∉ first)))
    ∧ (∀ first second : List α, ∀ e : α,
        (mergeVectors first second).count e
          = first.count e + if e ∈ first then 0 else second.count e)
    ∧ (∀ v : List α, mergeVectors v v = v) := by
  refine ⟨fun first second => mergeVectors_eq_append_filter first second, ?_, ?_⟩
  · intro first second e
    by_cases he : e ∈ first
    · rw [mergeVectors_eq_append_filter, List.count_append]
      simp [he, List.count_eq_zero, List.mem_filter]
    · rw [mergeVectors_eq_append_filter, List.count_append,
        List.count_filter (by simp [he])]
      simp [he]
  · intro v
    rw [mergeVectors_eq_append_filter]
    have : v.filter (fun e => decide (e ∉ v)) = [] := by
      apply List.filter_eq_nil_iff.mpr
      intro a ha
      simp [ha]
    simp [this]

/-- Helper for the embedding of the anonymous-namespace `MergeGroups` in
`src/api/api_database.cpp`: the effect of one loop iteration when
`std::find_if` finds a masterlist group with the user group's name. The
first group in the list whose name equals `userGroup`'s name is replaced
by `Group(userGroup.GetName(), afterGroups, description)` where the
description is the user one unless empty and the after-groups are the
existing ones followed by the user ones; `none` means `find_if` reached
the end. -/
def mergeUserGroupIntoList : List Group → Group → Option (List Group)
  | [], _ => none
  | existingGroup :: rest, userGroup =>
    if existingGroup.name = userGroup.name then
      some ({ name := userGroup.name,
              description := if userGroup.description.isEmpty then
                  existingGroup.description
                else userGroup.description,
              afterGroups := existingGroup.afterGroups ++ userGroup.afterGroups } :: rest)
    else
      (mergeUserGroupIntoList rest userGroup).map (existingGroup :: ·)

/-- The loop of `MergeGroups` over the user groups, threading the state
`(mergedGroups, newGroups)`. -/
def MergeGroupsLoop : List Group × List Group → List Group → List Group × List Group
  | st, [] => st
  | (mergedGroups, newGroups), userGroup :: rest =>
    match mergeUserGroupIntoList mergedGroups userGroup with
    | some merged2 => MergeGroupsLoop (merged2, newGroups) rest
    | none => MergeGroupsLoop (mergedGroups, newGroups ++ [userGroup]) rest

/-- Embedding of the anonymous-namespace `MergeGroups` in
`src/api/api_database.cpp`: start from the masterlist groups, fold the
user groups in (merging into the first masterlist group of the same name,
otherwise collecting into `newGroups`), then append `newGroups`. -/
def MergeGroups (masterlistGroups userGroups : List Group) : List Group :=
  let st := MergeGroupsLoop (masterlistGroups, []) userGroups
  st.1 ++ st.2

/-- Modelled from the spec: the `groups()` accessor of a metadata store is
its group list; `MetadataList::Groups` is not part of the sources. -/
def MetadataList.Groups (ml : MetadataList) : List Group :=
  ml.groups

/-- Embedding of `ApiDatabase::GetGroups` from `src/api/api_database.cpp`. -/
def ApiDatabase.GetGroups (db : ApiDatabase) (includeUserMetadata : Bool) : List Group :=
  if includeUserMetadata then
    MergeGroups db.masterlist.Groups db.userlist.Groups
  else
    db.masterlist.Groups

/-- The merge of a masterlist group with the user group of the same name,
as the claim words it: user description when non-empty, after-groups
concatenated masterlist-first. -/
def mergeGroupPair (g u : Group) : Group :=
  { name := u.name,
    description := if u.description.isEmpty then g.description else u.description,
    afterGroups := g.afterGroups ++ u.afterGroups }

theorem mergeUserGroupIntoList_eq_none {merged : List Group} {u : Group} :
    mergeUserGroupIntoList merged u = none ↔ ∀ g ∈ merged, g.name ≠ u.name := by
  induction merged with
  | nil => simp [mergeUserGroupIntoList]
  | cons g rest ih =>
    by_cases hg : g.name = u.name
    · simp [mergeUserGroupIntoList, hg]
    · simp [mergeUserGroupIntoList, hg, ih]

theorem mergeUserGroupIntoList_names {merged : List Group} {u : Group}
    {l : List Group} (h : mergeUserGroupIntoList merged u = some l) :
    l.map Group.name = merged.map Group.name := by
  induction merged generalizing l with
  | nil => simp [mergeUserGroupIntoList] at h
  | cons g rest ih =>
    by_cases hg : g.name = u.name
    · simp [mergeUserGroupIntoList, hg] at h
      subst h
      simp [hg]
    · simp [mergeUserGroupIntoList, hg] at h
      obtain ⟨l2, hl2, rfl⟩ := h
      simp [ih hl2]

theorem map_update_of_no_match {l : List Group} {u : Group}
    (h : ∀ g ∈ l, g.name ≠ u.name) :
    l.map (fun g => if g.name = u.name then mergeGroupPair g u else g) = l := by
  induction l with
  | nil => simp
  | cons g rest ih =>
    have hg := h g (List.mem_cons_self g rest)
    simp only [List.map_cons, if_neg hg]
    rw [ih (fun g2 hg2 => h g2 (List.mem_cons_of_mem g hg2))]

theorem mergeUserGroupIntoList_eq_map {merged : List Group} {u : Group}
    {l : List Group} (hnd : (merged.map Group.name).Nodup)
    (h : mergeUserGroupIntoList merged u = some l) :
    l = merged.map (fun g => if g.name = u.name then mergeGroupPair g u else g) := by
  induction merged generalizing l with
  | nil => simp [mergeUserGroupIntoList] at h
  | cons g rest ih =>
    rw [List.map_cons, List.nodup_cons] at hnd
    by_cases hg : g.name = u.name
    · simp [mergeUserGroupIntoList, hg] at h
      subst h
      have hrest : ∀ g2 ∈ rest, g2.name ≠ u.name := by
        intro g2 hg2 hEq
        exact hnd.1 (hg ▸ hEq ▸ List.mem_map_of_mem Group.name hg2)
      simp only [List.map_cons, if_pos hg, map_update_of_no_match hrest]
      rfl
    · simp [mergeUserGroupIntoList, hg] at h
      obtain ⟨l2, hl2, rfl⟩ := h
      simp only [List.map_cons, if_neg hg]
      rw [ih hnd.2 hl2]

theorem any_name_congr {l1 l2 : List Group} (h : l1.map Group.name = l2.map Group.name)
    (v : String) :
    l1.any (fun g => decide (g.name = v)) = l2.any (fun g => decide (g.name = v)) := by
  have key : ∀ l : List Group,
      l.any (fun g => decide (g.name = v))
        = (l.map Group.name).any (fun n => decide (n = v)) := by
    intro l
    induction l with
    | nil => rfl
    | cons a l ih => simp [List.any_cons, ih]
  rw [key l1, key l2, h]

theorem exists_match_of_merge_some {merged : List Group} {u : Group}
    {l : List Group} (h : mergeUserGroupIntoList merged u = some l) :
    ∃ g ∈ merged, g.name = u.name := by
  by_contra hno
  push_neg at hno
  rw [mergeUserGroupIntoList_eq_none.mpr hno] at h
  exact Option.noConfusion h

/-- The update a single masterlist group receives from a user group list:
the first user group of the same name is merged in, if any. -/
def applyUserGroup (us : List Group) (g : Group) : Group :=
  match us.find? (fun u => decide (g.name = u.name)) with
  | some u => mergeGroupPair g u
  | none => g

theorem applyUserGroup_nil (g : Group) : applyUserGroup [] g = g := rfl

theorem applyUserGroup_cons_of_eq {g u : Group} (us : List Group)
    (h : g.name = u.name) : applyUserGroup (u :: us) g = mergeGroupPair g u := by
  unfold applyUserGroup
  rw [List.find?_cons_of_pos _ (by simpa using h)]

theorem applyUserGroup_cons_of_ne {g u : Group} (us : List Group)
    (h : g.name ≠ u.name) : applyUserGroup (u :: us) g = applyUserGroup us g := by
  unfold applyUserGroup
  rw [List.find?_cons_of_neg _ (by simpa using h)]

theorem applyUserGroup_of_not_mem {g : Group} {us : List Group}
    (h : g.name ∉ us.map Group.name) : applyUserGroup us g = g := by
  unfold applyUserGroup
  have hfind : us.find? (fun u => decide (g.name = u.name)) = none := by
    rw [List.find?_eq_none]
    intro v hv hpv
    rw [decide_eq_true_eq] at hpv
    exact h (by rw [hpv]; exact List.mem_map_of_mem Group.name hv)
  rw [hfind]

/-- The claim-side description of the merged group list: each masterlist
group, updated by the user group of the same name when there is one,
followed by the user groups whose names appear in no masterlist group. -/
def groupsMergedPerClaim (ms us : List Group) : List Group :=
  ms.map (applyUserGroup us)
  ++ us.filter (fun u => !(ms.any (fun g => decide (g.name = u.name))))

theorem MergeGroupsLoop_eq (us : List Group) :
    ∀ (merged newGroups : List Group),
      (merged.map Group.name).Nodup →
      (us.map Group.name).Nodup →
      MergeGroupsLoop (merged, newGroups) us =
        (merged.map (applyUserGroup us),
         newGroups
           ++ us.filter (fun u => !(merged.any (fun g => decide (g.name = u.name))))) := by
  induction us with
  | nil =>
    intro merged newGroups _ _
    have hmap : ∀ l : List Group, l.map (applyUserGroup []) = l := by
      intro l
      induction l with
      | nil => rfl
      | cons a l ih => simp [applyUserGroup_nil, ih]
    simp [MergeGroupsLoop, hmap]
  | cons u us ih =>
    intro merged newGroups hm hus
    rw [List.map_cons, List.nodup_cons] at hus
    cases hcase : mergeUserGroupIntoList merged u with
    | some merged2 =>
      have hnames := mergeUserGroupIntoList_names hcase
      have hm2 : (merged2.map Group.name).Nodup := by rw [hnames]; exact hm
      have hmap := mergeUserGroupIntoList_eq_map hm hcase
      have hmem := exists_match_of_merge_some hcase
      have hanyu : merged.any (fun g => decide (g.name = u.name)) = true := by
        rw [List.any_eq_true]
        obtain ⟨g, hg, hEq⟩ := hmem
        exact ⟨g, hg, by simp [hEq]⟩
      simp only [MergeGroupsLoop, hcase]
      rw [ih merged2 newGroups hm2 hus.2, Prod.mk.injEq]
      constructor
      · rw [hmap, List.map_map]
        apply List.map_congr_left
        intro g _
        by_cases hgname : g.name = u.name
        · have hnameEq : (mergeGroupPair g u).name = u.name := rfl
          simp only [Function.comp_apply, if_pos hgname]
          rw [applyUserGroup_cons_of_eq us hgname,
            applyUserGroup_of_not_mem (by rw [hnameEq]; exact hus.1)]
        · simp only [Function.comp_apply, if_neg hgname]
          rw [applyUserGroup_cons_of_ne us hgname]
      · have hfil : us.filter (fun v => !(merged2.any (fun g => decide (g.name = v.name))))
            = us.filter (fun v => !(merged.any (fun g => decide (g.name = v.name)))) := by
          apply List.filter_congr
          intro v _
          rw [any_name_congr hnames]
        rw [hfil, List.filter_cons]
        simp [hanyu]
    | none =>
      have hno : ∀ g ∈ merged, g.name ≠ u.name := mergeUserGroupIntoList_eq_none.mp hcase
      have hanyu : merged.any (fun g => decide (g.name = u.name)) = false := by
        rw [List.any_eq_false]
        intro g hg
        simp [hno g hg]
      simp only [MergeGroupsLoop, hcase]
      rw [ih merged (newGroups ++ [u]) hm hus.2, Prod.mk.injEq]
      constructor
      · apply List.map_congr_left
        intro g hg
        rw [applyUserGroup_cons_of_ne us (hno g hg)]
      · rw [List.filter_cons]
        simp [hanyu]

/-- C2: when masterlist and userlist group names are each unique,
`get_groups(include_user=true)` merges groups by name — a group present in
both stores gets the userlist description when non-empty (otherwise the
masterlist one) and its after-group list is the masterlist after-groups
followed by the userlist ones, order and duplicates preserved — with
userlist-only groups appended after all masterlist groups; and
`get_groups(include_user=false)` returns exactly the masterlist groups. -/
theorem getGroups_merges_per_claim (db : ApiDatabase)
    (hm : (db.masterlist.groups.map Group.name).Nodup)
    (hu : (db.userlist.groups.map Group.name).Nodup) :
    db.GetGroups true
        = groupsMergedPerClaim db.masterlist.groups db.userlist.groups
    ∧ db.GetGroups false = db.masterlist.groups := by
  refine ⟨?_, rfl⟩
  show MergeGroups db.masterlist.groups db.userlist.groups = _
  unfold MergeGroups
  rw [MergeGroupsLoop_eq db.userlist.groups db.masterlist.groups [] hm hu]
  simp [groupsMergedPerClaim]

/-- A concrete database used to witness the group-merging theorem. -/
def dbGroups : ApiDatabase :=
  { masterlist :=
      { plugins := [],
        groups := [⟨"default", "", []⟩, ⟨"late", "base", ["default"]⟩],
        bashTags := [],
        messages := [] },
    userlist :=
      { plugins := [],
        groups := [⟨"late", "override", ["early"]⟩, ⟨"extra", "", ["late"]⟩],
        bashTags := [],
        messages := [] } }

theorem getGroups_merges_per_claim_witness :
    ((dbGroups.masterlist.groups.map Group.name).Nodup
      ∧ (dbGroups.userlist.groups.map Group.name).Nodup)
    ∧ (dbGroups.GetGroups true
          = groupsMergedPerClaim dbGroups.masterlist.groups dbGroups.userlist.groups
        ∧ dbGroups.GetGroups false = dbGroups.masterlist.groups) :=
  ⟨⟨by decide, by decide⟩,
    getGroups_merges_per_claim dbGroups (by decide) (by decide)⟩

/-- Modelled from the spec: ASCII lowercasing of a character, used for the
case-insensitive filename identity of plugins. -/
def lowerChar (c : Char) : Char :=
  if c.toNat ≥ 65 ∧ c.toNat ≤ 90 then Char.ofNat (c.toNat + 32) else c

/-- Modelled from the spec: ASCII lowercasing of a string, used for the
case-insensitive filename identity of plugins. -/
def lowerString (s : String) : String := String.mk (s.data.map lowerChar)

/-- Modelled from the spec: a metadata entry name may be a literal
filename or a regular expression; the C++ code that recognises a name as
a regular expression is not part of the sources, so a name counts as a
regular expression when it holds a regex metacharacter. -/
def nameIsRegex (s : String) : Bool :=
  s.data.any (fun c => c == ':' || c == '\\' || c == '*' || c == '?' || c == '|')

/-- Modelled from the spec: whether a metadata entry applies to the named
plugin — a regular-expression name matches when the regex oracle `rm`
says the filename matches, and a literal name matches the filename
case-insensitively. -/
def entryMatches (rm : String → String → Bool) (entry : PluginMetadata)
    (plugin : String) : Bool :=
  (nameIsRegex entry.name && rm entry.name plugin)
    || (!(nameIsRegex entry.name) && decide (lowerString entry.name = lowerString plugin))

/-- Modelled from the spec: dirty/clean info merges as a set-union keyed
by CRC — entries of `b` whose CRC already occurs in `a` are dropped. -/
def mergeCleaningInfo (a b : List PluginCleaningData) : List PluginCleaningData :=
  a ++ b.filter (fun d => !(a.any (fun e => decide (e.crc = d.crc))))

/-- Modelled from the spec: `PluginMetadata::MergeMetadata` is not part of
the sources; per the spec's merge algebra, `merge(a, b)` with `b`
overriding `a` keeps `b`'s group when set, set-unions the load-after,
requirement, incompatibility, tag and location lists (`a`'s elements
first, via `mergeVectors`), concatenates the messages of `a` then `b`,
and set-unions dirty/clean info keyed by CRC. The receiver is the
overrider `b`, following the call
`userMetadata.value().MergeMetadata(metadata.value())` in
`ApiDatabase::GetPluginMetadata`, where the userlist result overrides the
masterlist result. -/
def PluginMetadata.MergeMetadata (self other : PluginMetadata) : PluginMetadata :=
  { name := self.name,
    group := if self.group.isSome then self.group else other.group,
    loadAfter := mergeVectors other.loadAfter self.loadAfter,
    requirements := mergeVectors other.requirements self.requirements,
    incompatibilities := mergeVectors other.incompatibilities self.incompatibilities,
    messages := other.messages ++ self.messages,
    tags := mergeVectors other.tags self.tags,
    dirtyInfo := mergeCleaningInfo other.dirtyInfo self.dirtyInfo,
    cleanInfo := mergeCleaningInfo other.cleanInfo self.cleanInfo,
    locations := mergeVectors other.locations self.locations }

/-- The metadata entries that apply to a plugin, in the order the spec
gives for lookup: every regular-expression match in document order, then
the exact filename match. -/
def matchingEntries (rm : String → String → Bool) (ml : MetadataList)
    (plugin : String) : List PluginMetadata :=
  ml.plugins.filter (fun e => nameIsRegex e.name && rm e.name plugin)
    ++ (ml.plugins.find? (fun e =>
        !(nameIsRegex e.name) && decide (lowerString e.name = lowerString plugin))).toList

/-- Modelled from the spec: `MetadataList::FindPlugin` is not part of the
sources; per the spec, the effective metadata for a plugin is the merge,
in order, of every regular-expression match and then the exact
(case-insensitive) filename match, each later entry overriding the
accumulated earlier ones, or none when no entry matches. -/
def MetadataList.FindPlugin (ml : MetadataList) (rm : String → String → Bool)
    (plugin : String) : Option PluginMetadata :=
  match matchingEntries rm ml plugin with
  | [] => none
  | first :: rest => some (rest.foldl (fun acc e => e.MergeMetadata acc) first)

/-- Embedding of `ApiDatabase::GetPluginMetadata` from
`src/api/api_database.cpp`: look the plugin up in the masterlist; when
user metadata is included and the userlist has a result, merge the
masterlist result into it (the userlist result is the receiver, so it
overrides) and take that; finally run the condition oracle when asked. -/
def ApiDatabase.GetPluginMetadata (db : ApiDatabase)
    (rm : String → String → Bool) (evalAll : PluginMetadata → PluginMetadata)
    (plugin : String) (includeUserMetadata evaluateConditions : Bool) :
    Option PluginMetadata :=
  let metadata := db.masterlist.FindPlugin rm plugin
  let merged :=
    if includeUserMetadata then
      match db.userlist.FindPlugin rm plugin with
      | some userMetadata =>
          match metadata with
          | some m => some (userMetadata.MergeMetadata m)
          | none => some userMetadata
      | none => metadata
    else metadata
  if evaluateConditions then merged.map evalAll else merged

/-- Embedding of `ApiDatabase::GetPluginUserMetadata` from
`src/api/api_database.cpp`. -/
def ApiDatabase.GetPluginUserMetadata (db : ApiDatabase)
    (rm : String → String → Bool) (evalAll : PluginMetadata → PluginMetadata)
    (plugin : String) (evaluateConditions : Bool) : Option PluginMetadata :=
  let metadata := db.userlist.FindPlugin rm plugin
  if evaluateConditions then metadata.map evalAll else metadata

/-- The claim-side combination of the two stores' lookups: the userlist
result merged over the masterlist result, whichever exists alone, or
none. -/
def mergedStoreLookup (mm um : Option PluginMetadata) : Option PluginMetadata :=
  match mm, um with
  | none, none => none
  | some m, none => some m
  | none, some u => some u
  | some m, some u => some (u.MergeMetadata m)

theorem matchingEntries_eq_nil_iff (rm : String → String → Bool)
    (ml : MetadataList) (p : String) :
    matchingEntries rm ml p = [] ↔ ∀ e ∈ ml.plugins, entryMatches rm e p = false := by
  unfold matchingEntries
  rw [List.append_eq_nil]
  cases hfind : ml.plugins.find? (fun e =>
      !(nameIsRegex e.name) && decide (lowerString e.name = lowerString p)) with
  | some x =>
    have hpx0 := List.find?_some hfind
    have hpx : (!(nameIsRegex x.name) && decide (lowerString x.name = lowerString p)) = true :=
      hpx0
    have hmemx : x ∈ ml.plugins := List.mem_of_find?_eq_some hfind
    constructor
    · rintro ⟨_, habs⟩
      exact absurd habs (by simp)
    · intro h
      exfalso
      have hx := h x hmemx
      rw [entryMatches, Bool.or_eq_false_iff] at hx
      rw [hx.2] at hpx
      exact Bool.noConfusion hpx
  | none =>
    rw [List.filter_eq_nil_iff]
    constructor
    · rintro ⟨h1, _⟩ e he
      have h2 := List.find?_eq_none.mp hfind e he
      rw [entryMatches, Bool.or_eq_false_iff]
      constructor
      · exact Bool.eq_false_iff.mpr (h1 e he)
      · exact Bool.eq_false_iff.mpr h2
    · intro h
      refine ⟨fun e he => ?_, rfl⟩
      have he2 := h e he
      rw [entryMatches, Bool.or_eq_false_iff] at he2
      exact Bool.eq_false_iff.mp he2.1

theorem findPlugin_eq_none_iff (rm : String → String → Bool)
    (ml : MetadataList) (p : String) :
    ml.FindPlugin rm p = none ↔ ∀ e ∈ ml.plugins, entryMatches rm e p = false := by
  rw [← matchingEntries_eq_nil_iff rm ml p]
  cases h : matchingEntries rm ml p <;> simp [MetadataList.FindPlugin, h]

/-- C1: `get_plugin_metadata(p, include_user=true, evaluate_conditions=false)`
returns the merge of the regex-expanded effective masterlist and userlist
metadata for `p` with the userlist overriding; it is none exactly when
neither store has an exact or regex match; and when both stores match,
the result's group is the userlist group when set else the masterlist
group, its messages are the masterlist messages followed by the userlist
messages, the load-after/requirement/incompatibility/tag/location lists
are set-unions and the dirty/clean info is a set-union keyed by CRC. -/
theorem getPluginMetadata_merges_stores (rm : String → String → Bool)
    (evalAll : PluginMetadata → PluginMetadata) (db : ApiDatabase) (p : String) :
    db.GetPluginMetadata rm evalAll p true false
        = mergedStoreLookup (db.masterlist.FindPlugin rm p)
            (db.userlist.FindPlugin rm p)
    ∧ (db.GetPluginMetadata rm evalAll p true false = none
        ↔ (∀ e ∈ db.masterlist.plugins, entryMatches rm e p = false)
          ∧ (∀ e ∈ db.userlist.plugins, entryMatches rm e p = false))
    ∧ (∀ m u, db.masterlist.FindPlugin rm p = some m →
        db.userlist.FindPlugin rm p = some u →
        ∃ r, db.GetPluginMetadata rm evalAll p true false = some r
          ∧ r.group = (if u.group.isSome then u.group else m.group)
          ∧ r.messages = m.messages ++ u.messages
          ∧ r.loadAfter = mergeVectors m.loadAfter u.loadAfter
          ∧ r.requirements = mergeVectors m.requirements u.requirements
          ∧ r.incompatibilities = mergeVectors m.incompatibilities u.incompatibilities
          ∧ r.tags = mergeVectors m.tags u.tags
          ∧ r.locations = mergeVectors m.locations u.locations
          ∧ r.dirtyInfo = mergeCleaningInfo m.dirtyInfo u.dirtyInfo
          ∧ r.cleanInfo = mergeCleaningInfo m.cleanInfo u.cleanInfo) := by
  have hmain : db.GetPluginMetadata rm evalAll p true false
      = mergedStoreLookup (db.masterlist.FindPlugin rm p)
          (db.userlist.FindPlugin rm p) := by
    cases hM : db.masterlist.FindPlugin rm p <;>
      cases hU : db.userlist.FindPlugin rm p <;>
      simp [ApiDatabase.GetPluginMetadata, mergedStoreLookup, hM, hU]
  refine ⟨hmain, ?_, ?_⟩
  · rw [hmain]
    have hnone : ∀ a b : Option PluginMetadata,
        mergedStoreLookup a b = none ↔ a = none ∧ b = none := by
      intro a b
      cases a <;> cases b <;> simp [mergedStoreLookup]
    rw [hnone, findPlugin_eq_none_iff, findPlugin_eq_none_iff]
  · intro m u hm hu
    refine ⟨u.MergeMetadata m, ?_, rfl, rfl, rfl, rfl, rfl, rfl, rfl, rfl, rfl⟩
    rw [hmain, hm, hu]
    rfl

/-- A regex oracle that never matches, used by concrete witnesses. -/
def rmNever : String → String → Bool := fun _ _ => false

/-- A concrete masterlist entry used by the plugin-lookup witness. -/
def pmMasterA : PluginMetadata :=
  { name := "a.esp", group := none, loadAfter := [⟨"x.esp", "", ""⟩],
    requirements := [], incompatibilities := [],
    messages := [⟨"say", "from masterlist", ""⟩], tags := [],
    dirtyInfo := [⟨100, "util", 1, 0, 0⟩], cleanInfo := [], locations := [] }

/-- A concrete userlist entry used by the plugin-lookup witness. -/
def pmUserA : PluginMetadata :=
  { name := "A.esp", group := some "late", loadAfter := [⟨"y.esp", "", ""⟩],
    requirements := [], incompatibilities := [],
    messages := [⟨"say", "from userlist", ""⟩], tags := [],
    dirtyInfo := [⟨200, "util", 2, 0, 0⟩], cleanInfo := [], locations := [] }

/-- A concrete database used by the plugin-lookup witness. -/
def dbPlugins : ApiDatabase :=
  { masterlist := { plugins := [pmMasterA], groups := [], bashTags := [], messages := [] },
    userlist := { plugins := [pmUserA], groups := [], bashTags := [], messages := [] } }

theorem getPluginMetadata_merges_stores_witness :
    (dbPlugins.masterlist.FindPlugin rmNever "a.esp" = some pmMasterA
      ∧ dbPlugins.userlist.FindPlugin rmNever "a.esp" = some pmUserA)
    ∧ ∃ r, dbPlugins.GetPluginMetadata rmNever id "a.esp" true false = some r
        ∧ r.group = (if pmUserA.group.isSome then pmUserA.group else pmMasterA.group)
        ∧ r.messages = pmMasterA.messages ++ pmUserA.messages
        ∧ r.loadAfter = mergeVectors pmMasterA.loadAfter pmUserA.loadAfter
        ∧ r.requirements = mergeVectors pmMasterA.requirements pmUserA.requirements
        ∧ r.incompatibilities
            = mergeVectors pmMasterA.incompatibilities pmUserA.incompatibilities
        ∧ r.tags = mergeVectors pmMasterA.tags pmUserA.tags
        ∧ r.locations = mergeVectors pmMasterA.locations pmUserA.locations
        ∧ r.dirtyInfo = mergeCleaningInfo pmMasterA.dirtyInfo pmUserA.dirtyInfo
        ∧ r.cleanInfo = mergeCleaningInfo pmMasterA.cleanInfo pmUserA.cleanInfo :=
  ⟨⟨by decide, by decide⟩,
    (getPluginMetadata_merges_stores rmNever id dbPlugins "a.esp").2.2 pmMasterA pmUserA
      (by decide) (by decide)⟩

/-- Modelled from the spec: `erase_plugin(name)` removes the stored entry
for the given (case-insensitively compared) plugin name;
`MetadataList::ErasePlugin` is not part of the sources. -/
def MetadataList.ErasePlugin (ml : MetadataList) (plugin : String) : MetadataList :=
  { ml with plugins :=
      (ml.plugins.filter (fun e => !(decide (lowerString e.name = lowerString plugin)))) }

/-- Modelled from the spec: `add_plugin(meta)` stores a new plugin entry;
`MetadataList::AddPlugin` is not part of the sources. -/
def MetadataList.AddPlugin (ml : MetadataList) (m : PluginMetadata) : MetadataList :=
  { ml with plugins := ml.plugins ++ [m] }

/-- Modelled from the spec: `clear()` empties the store;
`MetadataList::Clear` is not part of the sources. -/
def MetadataList.Clear (_ml : MetadataList) : MetadataList :=
  { plugins := [], groups := [], bashTags := [], messages := [] }

/-- Modelled from the spec: `set_groups(gs)` replaces the stored groups;
`MetadataList::SetGroups` is not part of the sources. -/
def MetadataList.SetGroups (ml : MetadataList) (gs : List Group) : MetadataList :=
  { ml with groups := gs }

/-- Modelled from the spec: the `bash_tags()` accessor of a metadata
store; `MetadataList::BashTags` is not part of the sources. -/
def MetadataList.BashTags (ml : MetadataList) : List String :=
  ml.bashTags

/-- Embedding of `ApiDatabase::SetUserGroups` from
`src/api/api_database.cpp`. -/
def ApiDatabase.SetUserGroups (db : ApiDatabase) (groups : List Group) : ApiDatabase :=
  { db with userlist := db.userlist.SetGroups groups }

/-- Embedding of `ApiDatabase::SetPluginUserMetadata` from
`src/api/api_database.cpp`: erase any userlist entry with the metadata's
name, then add the metadata. -/
def ApiDatabase.SetPluginUserMetadata (db : ApiDatabase)
    (pluginMetadata : PluginMetadata) : ApiDatabase :=
  { db with userlist :=
      (db.userlist.ErasePlugin pluginMetadata.name).AddPlugin pluginMetadata }

/-- Embedding of `ApiDatabase::DiscardPluginUserMetadata` from
`src/api/api_database.cpp`. -/
def ApiDatabase.DiscardPluginUserMetadata (db : ApiDatabase) (plugin : String) :
    ApiDatabase :=
  { db with userlist := db.userlist.ErasePlugin plugin }

/-- Embedding of `ApiDatabase::DiscardAllUserMetadata` from
`src/api/api_database.cpp`. -/
def ApiDatabase.DiscardAllUserMetadata (db : ApiDatabase) : ApiDatabase :=
  { db with userlist := db.userlist.Clear }

/-- Embedding of `ApiDatabase::GetKnownBashTags` from
`src/api/api_database.cpp`: the masterlist tags, with the userlist tags
appended when the latter are non-empty. -/
def ApiDatabase.GetKnownBashTags (db : ApiDatabase) : List String :=
  let masterlistTags := db.masterlist.BashTags
  let userlistTags := db.userlist.BashTags
  if userlistTags.isEmpty then masterlistTags
  else masterlistTags ++ userlistTags

/-- C7: the userlist-mutating operations `set_user_groups`,
`set_plugin_user_metadata`, `discard_plugin_user_metadata` and
`discard_all_user_metadata` leave the masterlist store unchanged: after
any of them, `get_groups(include_user=false)` and
`get_plugin_metadata(q, include_user=false, evaluate_conditions=false)`
return the same values as before, for every name `q`. -/
theorem userlistMutations_preserve_masterlist (db : ApiDatabase)
    (gs : List Group) (m : PluginMetadata) (name : String)
    (rm : String → String → Bool) (evalAll : PluginMetadata → PluginMetadata)
    (q : String) :
    ((db.SetUserGroups gs).GetGroups false = db.GetGroups false
      ∧ (db.SetUserGroups gs).GetPluginMetadata rm evalAll q false false
          = db.GetPluginMetadata rm evalAll q false false)
    ∧ ((db.SetPluginUserMetadata m).GetGroups false = db.GetGroups false
      ∧ (db.SetPluginUserMetadata m).GetPluginMetadata rm evalAll q false false
          = db.GetPluginMetadata rm evalAll q false false)
    ∧ ((db.DiscardPluginUserMetadata name).GetGroups false = db.GetGroups false
      ∧ (db.DiscardPluginUserMetadata name).GetPluginMetadata rm evalAll q false false
          = db.GetPluginMetadata rm evalAll q false false)
    ∧ ((db.DiscardAllUserMetadata).GetGroups false = db.GetGroups false
      ∧ (db.DiscardAllUserMetadata).GetPluginMetadata rm evalAll q false false
          = db.GetPluginMetadata rm evalAll q false false) :=
  ⟨⟨rfl, rfl⟩, ⟨rfl, rfl⟩, ⟨rfl, rfl⟩, rfl, rfl⟩

/-- C10: `get_known_bash_tags()` is the plain concatenation of the
masterlist's and the userlist's bash tags, with no deduplication and no
sorting, so a tag named in both documents appears at least twice. -/
theorem getKnownBashTags_concatenates (db : ApiDatabase) :
    db.GetKnownBashTags = db.masterlist.bashTags ++ db.userlist.bashTags
    ∧ ∀ t : String, t ∈ db.masterlist.bashTags → t ∈ db.userlist.bashTags →
        2 ≤ db.GetKnownBashTags.count t := by
  have h : db.GetKnownBashTags = db.masterlist.bashTags ++ db.userlist.bashTags := by
    cases hu : db.userlist.bashTags <;>
      simp [ApiDatabase.GetKnownBashTags, MetadataList.BashTags, hu]
  refine ⟨h, ?_⟩
  intro t htm htu
  rw [h, List.count_append]
  have h1 : 0 < db.masterlist.bashTags.count t := List.count_pos_iff.mpr htm
  have h2 : 0 < db.userlist.bashTags.count t := List.count_pos_iff.mpr htu
  omega

/-- A concrete database used by the bash-tags witness: the tag `Delev`
appears in both stores. -/
def dbTags : ApiDatabase :=
  { masterlist := { plugins := [], groups := [], bashTags := ["Delev", "Relev"],
                    messages := [] },
    userlist := { plugins := [], groups := [], bashTags := ["Delev"],
                  messages := [] } }

theorem getKnownBashTags_concatenates_witness :
    ("Delev" ∈ dbTags.masterlist.bashTags ∧ "Delev" ∈ dbTags.userlist.bashTags)
    ∧ 2 ≤ dbTags.GetKnownBashTags.count "Delev" :=
  ⟨⟨by decide, by decide⟩,
    (getKnownBashTags_concatenates dbTags).2 "Delev" (by decide) (by decide)⟩

theorem find?_append_of_none {α : Type} {p : α → Bool} {l1 l2 : List α}
    (h : l1.find? p = none) : (l1 ++ l2).find? p = l2.find? p := by
  induction l1 with
  | nil => rfl
  | cons a l ih =>
    cases hpa : p a with
    | true =>
      rw [List.find?_cons_of_pos _ hpa] at h
      exact Option.noConfusion h
    | false =>
      rw [List.find?_cons_of_neg _ (by simp [hpa])] at h
      rw [List.cons_append, List.find?_cons_of_neg _ (by simp [hpa])]
      exact ih h

/-- C9 (amended): `set_plugin_user_metadata(m)` replaces rather than
merges — it erases every userlist entry carrying `m`'s name and appends
`m` — and, provided `m`'s name is not a regular expression and no
regex-named userlist entry matches `m`'s name, a subsequent
`get_plugin_user_metadata(m.name, evaluate_conditions=false)` returns
exactly `m`. -/
theorem setPluginUserMetadata_replaces (db : ApiDatabase) (m : PluginMetadata)
    (rm : String → String → Bool) (evalAll : PluginMetadata → PluginMetadata)
    (hreg : nameIsRegex m.name = false)
    (hnomatch : ∀ e ∈ db.userlist.plugins,
      (nameIsRegex e.name && rm e.name m.name) = false) :
    (db.SetPluginUserMetadata m).userlist.plugins
        = db.userlist.plugins.filter
            (fun e => !(decide (lowerString e.name = lowerString m.name))) ++ [m]
    ∧ (db.SetPluginUserMetadata m).GetPluginUserMetadata rm evalAll m.name false
        = some m := by
  refine ⟨rfl, ?_⟩
  show ((db.userlist.ErasePlugin m.name).AddPlugin m).FindPlugin rm m.name = some m
  have hregexNil :
      (db.userlist.plugins.filter
          (fun e => !(decide (lowerString e.name = lowerString m.name))) ++ [m]).filter
        (fun e => nameIsRegex e.name && rm e.name m.name) = [] := by
    rw [List.filter_append]
    have h1 : (db.userlist.plugins.filter
        (fun e => !(decide (lowerString e.name = lowerString m.name)))).filter
          (fun e => nameIsRegex e.name && rm e.name m.name) = [] := by
      apply List.filter_eq_nil_iff.mpr
      intro e he
      have hmem : e ∈ db.userlist.plugins := (List.mem_filter.mp he).1
      simp [hnomatch e hmem]
    have h2 : [m].filter (fun e => nameIsRegex e.name && rm e.name m.name) = [] := by
      simp [List.filter, hreg]
    rw [h1, h2]
    rfl
  have hfind :
      (db.userlist.plugins.filter
          (fun e => !(decide (lowerString e.name = lowerString m.name))) ++ [m]).find?
        (fun e => !(nameIsRegex e.name)
          && decide (lowerString e.name = lowerString m.name)) = some m := by
    have hnone : (db.userlist.plugins.filter
        (fun e => !(decide (lowerString e.name = lowerString m.name)))).find?
          (fun e => !(nameIsRegex e.name)
            && decide (lowerString e.name = lowerString m.name)) = none := by
      apply List.find?_eq_none.mpr
      intro e he hpe
      have hpe2 : (!(nameIsRegex e.name)
          && decide (lowerString e.name = lowerString m.name)) = true := hpe
      have hne : (!(decide (lowerString e.name = lowerString m.name))) = true :=
        (List.mem_filter.mp he).2
      rw [Bool.not_eq_true'] at hne
      rw [hne, Bool.and_false] at hpe2
      exact Bool.noConfusion hpe2
    rw [find?_append_of_none hnone, List.find?_cons_of_pos _ (by simp [hreg])]
  have hentries : matchingEntries rm ((db.userlist.ErasePlugin m.name).AddPlugin m)
      m.name = [m] := by
    unfold matchingEntries
    show (db.userlist.plugins.filter
        (fun e => !(decide (lowerString e.name = lowerString m.name))) ++ [m]).filter _
      ++ ((db.userlist.plugins.filter
        (fun e => !(decide (lowerString e.name = lowerString m.name))) ++ [m]).find? _).toList = _
    rw [hregexNil, hfind]
    rfl
  simp [MetadataList.FindPlugin, hentries]

/-- A concrete userlist entry used by the replace-semantics witness. -/
def pmOldA : PluginMetadata :=
  { name := "a.esp", group := some "old", loadAfter := [], requirements := [],
    incompatibilities := [], messages := [⟨"say", "old", ""⟩], tags := [],
    dirtyInfo := [], cleanInfo := [], locations := [] }

/-- The replacement metadata used by the replace-semantics witness. -/
def pmNewA : PluginMetadata :=
  { name := "A.esp", group := some "new", loadAfter := [], requirements := [],
    incompatibilities := [], messages := [⟨"say", "new", ""⟩], tags := [],
    dirtyInfo := [], cleanInfo := [], locations := [] }

/-- A concrete database used by the replace-semantics witness. -/
def dbUser : ApiDatabase :=
  { masterlist := { plugins := [], groups := [], bashTags := [], messages := [] },
    userlist := { plugins := [pmOldA, ⟨"b.esp", none, [], [], [], [], [], [], [], []⟩],
                  groups := [], bashTags := [], messages := [] } }

theorem setPluginUserMetadata_replaces_witness :
    (nameIsRegex pmNewA.name = false
      ∧ ∀ e ∈ dbUser.userlist.plugins,
          (nameIsRegex e.name && rmNever e.name pmNewA.name) = false)
    ∧ ((dbUser.SetPluginUserMetadata pmNewA).userlist.plugins
        = dbUser.userlist.plugins.filter
            (fun e => !(decide (lowerString e.name = lowerString pmNewA.name)))
          ++ [pmNewA]
      ∧ (dbUser.SetPluginUserMetadata pmNewA).GetPluginUserMetadata rmNever id
          pmNewA.name false = some pmNewA) :=
  ⟨⟨by decide, by decide⟩,
    setPluginUserMetadata_replaces dbUser pmNewA rmNever id (by decide) (by decide)⟩

/-- A regex-named userlist entry carrying a message, used to refute the
unqualified replace claim. -/
def pmRegexStar : PluginMetadata :=
  { name := "a*", group := none, loadAfter := [], requirements := [],
    incompatibilities := [], messages := [⟨"say", "regex message", ""⟩],
    tags := [], dirtyInfo := [], cleanInfo := [], locations := [] }

/-- A database whose userlist holds only the regex-named entry. -/
def dbRegex : ApiDatabase :=
  { masterlist := { plugins := [], groups := [], bashTags := [], messages := [] },
    userlist := { plugins := [pmRegexStar], groups := [], bashTags := [],
                  messages := [] } }

/-- A regex oracle under which the pattern `a*` matches `a.esp`. -/
def rmStar : String → String → Bool :=
  fun pat s => pat == "a*" && s == "a.esp"

/-- Plain replacement metadata for `a.esp` with no other fields set. -/
def pmPlainA : PluginMetadata :=
  { name := "a.esp", group := none, loadAfter := [], requirements := [],
    incompatibilities := [], messages := [], tags := [], dirtyInfo := [],
    cleanInfo := [], locations := [] }

/-- C9 counterexample: after `set_plugin_user_metadata(m)` with a
surviving regex-named userlist entry matching `m`'s name,
`get_plugin_user_metadata(m.name, evaluate_conditions=false)` does not
return exactly `m` — the regex entry's message is retained in the
merge. -/
theorem setPluginUserMetadata_not_exact : ¬
    ((dbRegex.SetPluginUserMetadata pmPlainA).GetPluginUserMetadata rmStar id
        pmPlainA.name false = some pmPlainA) := by
  decide

/-- A filesystem path, as a list of components. -/
abbrev FsPath := List String

/-- The parent directory of a path, as `std::filesystem::path::parent_path`
behaves on the paths the database receives: the path without its last
component. -/
def parentPath (p : FsPath) : FsPath := p.dropLast

/-- Renders a path for an error message. -/
def pathString (p : FsPath) : String := String.intercalate "/" p

/-- Modelled from the spec: a metadata document as the document oracle
sees it — either well-formed, yielding a structured metadata list, or
malformed, which the oracle rejects; the parsing code is not part of the
sources. -/
inductive Doc where
  | wellFormed (m : MetadataList)
  | malformed
deriving DecidableEq

/-- A snapshot of the filesystem: the documents stored at file paths, and
which directories exist. -/
structure FileSystem where
  files : FsPath → Option Doc
  dirs : FsPath → Bool

/-- `std::filesystem::exists`: a path exists when a file or a directory is
there. -/
def fsExists (fs : FileSystem) (p : FsPath) : Bool :=
  (fs.files p).isSome || fs.dirs p

/-- The error kinds the database layer raises, following
`FileAccessError`, `std::invalid_argument` and the parse error the
document oracle raises. -/
inductive LootError where
  | fileAccessError (msg : String)
  | invalidArgument (msg : String)
  | parseError (msg : String)
deriving DecidableEq

/-- Modelled from the spec: `MetadataList::Load` is not part of the
sources; per the spec, `load(path)` reads the document at the path and
replaces the contents, failing with a parse error when the document is
malformed and with a file access error when the path is unreadable. -/
def MetadataList.Load (fs : FileSystem) (p : FsPath) : Except LootError MetadataList :=
  match fs.files p with
  | some (Doc.wellFormed m) => .ok m
  | some Doc.malformed => .error (.parseError "the document oracle rejected the file")
  | none => .error (.fileAccessError "the file is unreadable")

/-- Modelled from the spec: `MetadataList::LoadWithPrelude` is not part
of the sources; the prelude only feeds the document oracle's substitution,
so loading parses the masterlist document exactly as `Load` does. -/
def MetadataList.LoadWithPrelude (fs : FileSystem) (p _preludePath : FsPath) :
    Except LootError MetadataList :=
  MetadataList.Load fs p

/-- Modelled from the spec: `MetadataList::Save` is not part of the
sources; per the spec, saving serialises the store through the document
oracle to the given path. -/
def MetadataList.Save (ml : MetadataList) (fs : FileSystem) (p : FsPath) : FileSystem :=
  { fs with files := fun q => if q = p then some (Doc.wellFormed ml) else fs.files q }

/-- Embedding of `ApiDatabase::LoadMasterlist` from
`src/api/api_database.cpp`: check the path exists, load into a temporary,
and only then assign it to the masterlist member, so a thrown error
leaves the store unchanged. -/
def ApiDatabase.LoadMasterlist (db : ApiDatabase) (fs : FileSystem)
    (masterlistPath : FsPath) : Except LootError Unit × ApiDatabase :=
  if fsExists fs masterlistPath then
    match MetadataList.Load fs masterlistPath with
    | .ok temp => (.ok (), { db with masterlist := temp })
    | .error e => (.error e, db)
  else
    (.error (.fileAccessError ("The given masterlist path does not exist: "
      ++ pathString masterlistPath)), db)

/-- Embedding of `ApiDatabase::LoadMasterlistWithPrelude` from
`src/api/api_database.cpp`: both paths must exist before loading. -/
def ApiDatabase.LoadMasterlistWithPrelude (db : ApiDatabase) (fs : FileSystem)
    (masterlistPath masterlistPreludePath : FsPath) :
    Except LootError Unit × ApiDatabase :=
  if fsExists fs masterlistPath then
    if fsExists fs masterlistPreludePath then
      match MetadataList.LoadWithPrelude fs masterlistPath masterlistPreludePath with
      | .ok temp => (.ok (), { db with masterlist := temp })
      | .error e => (.error e, db)
    else
      (.error (.fileAccessError ("The given masterlist prelude path does not exist: "
        ++ pathString masterlistPreludePath)), db)
  else
    (.error (.fileAccessError ("The given masterlist path does not exist: "
      ++ pathString masterlistPath)), db)

/-- Embedding of `ApiDatabase::LoadUserlist` from
`src/api/api_database.cpp`. -/
def ApiDatabase.LoadUserlist (db : ApiDatabase) (fs : FileSystem)
    (userlistPath : FsPath) : Except LootError Unit × ApiDatabase :=
  if fsExists fs userlistPath then
    match MetadataList.Load fs userlistPath with
    | .ok temp => (.ok (), { db with userlist := temp })
    | .error e => (.error e, db)
  else
    (.error (.fileAccessError ("The given userlist path does not exist: "
      ++ pathString userlistPath)), db)

/-- Embedding of `ApiDatabase::WriteUserMetadata` from
`src/api/api_database.cpp`: validate the output directory, then the
overwrite permission, and only then save. -/
def ApiDatabase.WriteUserMetadata (db : ApiDatabase) (fs : FileSystem)
    (outputFile : FsPath) (overwrite : Bool) : Except LootError Unit × FileSystem :=
  if !(fsExists fs (parentPath outputFile)) then
    (.error (.invalidArgument "Output directory does not exist."), fs)
  else if fsExists fs outputFile && !overwrite then
    (.error (.fileAccessError "Output file exists but overwrite is not set to true."), fs)
  else
    (.ok (), db.userlist.Save fs outputFile)

/-- The C++ constructor `PluginMetadata(name)` used by `WriteMinimalList`:
only the name is set. -/
def PluginMetadata.withNameOnly (name : String) : PluginMetadata :=
  { name := name, group := none, loadAfter := [], requirements := [],
    incompatibilities := [], messages := [], tags := [], dirtyInfo := [],
    cleanInfo := [], locations := [] }

/-- Modelled from the spec: the tag-suggestion setter of a metadata entry;
`PluginMetadata::SetTags` is not part of the sources. -/
def PluginMetadata.SetTags (m : PluginMetadata) (tags : List Tag) : PluginMetadata :=
  { m with tags := tags }

/-- Modelled from the spec: the dirty-info setter of a metadata entry;
`PluginMetadata::SetDirtyInfo` is not part of the sources. -/
def PluginMetadata.SetDirtyInfo (m : PluginMetadata)
    (dirtyInfo : List PluginCleaningData) : PluginMetadata :=
  { m with dirtyInfo := dirtyInfo }

/-- The default-constructed `MetadataList` that `WriteMinimalList` fills. -/
def emptyMetadataList : MetadataList :=
  { plugins := [], groups := [], bashTags := [], messages := [] }

/-- Embedding of `ApiDatabase::WriteMinimalList` from
`src/api/api_database.cpp`: after the same two filesystem checks as
`WriteUserMetadata`, build a minimal list holding, for each masterlist
plugin entry, only its name, tags and dirty info, and save it. -/
def ApiDatabase.WriteMinimalList (db : ApiDatabase) (fs : FileSystem)
    (outputFile : FsPath) (overwrite : Bool) : Except LootError Unit × FileSystem :=
  if !(fsExists fs (parentPath outputFile)) then
    (.error (.invalidArgument "Output directory does not exist."), fs)
  else if fsExists fs outputFile && !overwrite then
    (.error (.fileAccessError "Output file exists but overwrite is not set to true."), fs)
  else
    let minimalList := db.masterlist.plugins.foldl
      (fun acc plugin => acc.AddPlugin
        (((PluginMetadata.withNameOnly plugin.name).SetTags plugin.tags).SetDirtyInfo
          plugin.dirtyInfo))
      emptyMetadataList
    (.ok (), minimalList.Save fs outputFile)

/-- C3: the three load operations throw `FileAccessError` when a given
path does not exist (for the prelude variant, when either path is
absent), propagate the parse error when the document oracle rejects the
file, and in every failure case leave the targeted store unchanged, while
on success they fully replace its contents with the loaded document. -/
theorem loads_validate_and_replace (fs : FileSystem) (db : ApiDatabase) :
    (∀ p, fsExists fs p = false →
        ∃ s, db.LoadMasterlist fs p = (.error (.fileAccessError s), db))
    ∧ (∀ p, fs.files p = some Doc.malformed →
        ∃ s, db.LoadMasterlist fs p = (.error (.parseError s), db))
    ∧ (∀ p m, fs.files p = some (Doc.wellFormed m) →
        db.LoadMasterlist fs p = (.ok (), { db with masterlist := m }))
    ∧ (∀ p pp, fsExists fs p = false →
        ∃ s, db.LoadMasterlistWithPrelude fs p pp = (.error (.fileAccessError s), db))
    ∧ (∀ p pp, fsExists fs p = true → fsExists fs pp = false →
        ∃ s, db.LoadMasterlistWithPrelude fs p pp = (.error (.fileAccessError s), db))
    ∧ (∀ p pp, fsExists fs pp = true → fs.files p = some Doc.malformed →
        ∃ s, db.LoadMasterlistWithPrelude fs p pp = (.error (.parseError s), db))
    ∧ (∀ p pp m, fsExists fs pp = true → fs.files p = some (Doc.wellFormed m) →
        db.LoadMasterlistWithPrelude fs p pp = (.ok (), { db with masterlist := m }))
    ∧ (∀ p, fsExists fs p = false →
        ∃ s, db.LoadUserlist fs p = (.error (.fileAccessError s), db))
    ∧ (∀ p, fs.files p = some Doc.malformed →
        ∃ s, db.LoadUserlist fs p = (.error (.parseError s), db))
    ∧ (∀ p m, fs.files p = some (Doc.wellFormed m) →
        db.LoadUserlist fs p = (.ok (), { db with userlist := m })) := by
  refine ⟨?_, ?_, ?_, ?_, ?_, ?_, ?_, ?_, ?_, ?_⟩
  · intro p hp
    exact ⟨"The given masterlist path does not exist: " ++ pathString p,
      by simp [ApiDatabase.LoadMasterlist, hp]⟩
  · intro p hp
    have hex : fsExists fs p = true := by simp [fsExists, hp]
    exact ⟨"the document oracle rejected the file",
      by simp [ApiDatabase.LoadMasterlist, hex, MetadataList.Load, hp]⟩
  · intro p m hp
    have hex : fsExists fs p = true := by simp [fsExists, hp]
    simp [ApiDatabase.LoadMasterlist, hex, MetadataList.Load, hp]
  · intro p pp hp
    exact ⟨"The given masterlist path does not exist: " ++ pathString p,
      by simp [ApiDatabase.LoadMasterlistWithPrelude, hp]⟩
  · intro p pp hp hpp
    exact ⟨"The given masterlist prelude path does not exist: " ++ pathString pp,
      by simp [ApiDatabase.LoadMasterlistWithPrelude, hp, hpp]⟩
  · intro p pp hpp hp
    have hex : fsExists fs p = true := by simp [fsExists, hp]
    exact ⟨"the document oracle rejected the file",
      by simp [ApiDatabase.LoadMasterlistWithPrelude, hex, hpp,
        MetadataList.LoadWithPrelude, MetadataList.Load, hp]⟩
  · intro p pp m hpp hp
    have hex : fsExists fs p = true := by simp [fsExists, hp]
    simp [ApiDatabase.LoadMasterlistWithPrelude, hex, hpp,
      MetadataList.LoadWithPrelude, MetadataList.Load, hp]
  · intro p hp
    exact ⟨"The given userlist path does not exist: " ++ pathString p,
      by simp [ApiDatabase.LoadUserlist, hp]⟩
  · intro p hp
    have hex : fsExists fs p = true := by simp [fsExists, hp]
    exact ⟨"the document oracle rejected the file",
      by simp [ApiDatabase.LoadUserlist, hex, MetadataList.Load, hp]⟩
  · intro p m hp
    have hex : fsExists fs p = true := by simp [fsExists, hp]
    simp [ApiDatabase.LoadUserlist, hex, MetadataList.Load, hp]

/-- C4: `write_user_metadata` and `write_minimal_list` throw
`InvalidArgument` when the output path's parent directory does not exist
and `FileAccessError` when the path exists and overwrite is false, and in
either error case the filesystem is returned unchanged — nothing is
written. -/
theorem writes_validate_before_writing (fs : FileSystem) (db : ApiDatabase) :
    (∀ p ow, fsExists fs (parentPath p) = false →
        ∃ s, db.WriteUserMetadata fs p ow = (.error (.invalidArgument s), fs))
    ∧ (∀ p, fsExists fs (parentPath p) = true → fsExists fs p = true →
        ∃ s, db.WriteUserMetadata fs p false = (.error (.fileAccessError s), fs))
    ∧ (∀ p ow, fsExists fs (parentPath p) = false →
        ∃ s, db.WriteMinimalList fs p ow = (.error (.invalidArgument s), fs))
    ∧ (∀ p, fsExists fs (parentPath p) = true → fsExists fs p = true →
        ∃ s, db.WriteMinimalList fs p false = (.error (.fileAccessError s), fs)) := by
  refine ⟨?_, ?_, ?_, ?_⟩
  · intro p ow hp
    exact ⟨"Output directory does not exist.",
      by simp [ApiDatabase.WriteUserMetadata, hp]⟩
  · intro p hpar hp
    exact ⟨"Output file exists but overwrite is not set to true.",
      by simp [ApiDatabase.WriteUserMetadata, hpar, hp]⟩
  · intro p ow hp
    exact ⟨"Output directory does not exist.",
      by simp [ApiDatabase.WriteMinimalList, hp]⟩
  · intro p hpar hp
    exact ⟨"Output file exists but overwrite is not set to true.",
      by simp [ApiDatabase.WriteMinimalList, hpar, hp]⟩

/-- C5: writing the userlist to a fresh path with overwrite permitted and
then loading that path back as a userlist succeeds and yields a userlist
store equal to the one written. -/
theorem writeUserMetadata_load_roundtrip (fs : FileSystem) (db db2 : ApiDatabase)
    (p : FsPath) (hdir : fsExists fs (parentPath p) = true)
    (hfresh : fsExists fs p = false) :
    ∃ fs2, db.WriteUserMetadata fs p true = (.ok (), fs2)
      ∧ db2.LoadUserlist fs2 p = (.ok (), { db2 with userlist := db.userlist }) := by
  refine ⟨db.userlist.Save fs p, ?_, ?_⟩
  · simp [ApiDatabase.WriteUserMetadata, hdir, hfresh]
  · have hfile : (db.userlist.Save fs p).files p = some (Doc.wellFormed db.userlist) := by
      simp [MetadataList.Save]
    have hex : fsExists (db.userlist.Save fs p) p = true := by
      simp [fsExists, hfile]
    simp [ApiDatabase.LoadUserlist, hex, MetadataList.Load, hfile]

theorem foldl_addPlugin (f : PluginMetadata → PluginMetadata) :
    ∀ (l : List PluginMetadata) (acc : MetadataList),
      l.foldl (fun acc plugin => acc.AddPlugin (f plugin)) acc
        = { acc with plugins := acc.plugins ++ l.map f } := by
  intro l
  induction l with
  | nil =>
    intro acc
    rw [List.foldl_nil, List.map_nil, List.append_nil]
  | cons x xs ih =>
    intro acc
    rw [List.foldl_cons, ih]
    simp [MetadataList.AddPlugin]

/-- C6: when the filesystem checks pass, the metadata list serialised by
`write_minimal_list` has one entry per masterlist plugin entry, each
carrying exactly that plugin's name, tag suggestions and dirty info, with
every other field empty — and carries no groups, bash tags or general
messages. -/
theorem writeMinimalList_contents (fs : FileSystem) (db : ApiDatabase)
    (p : FsPath) (ow : Bool)
    (hdir : fsExists fs (parentPath p) = true)
    (hok : fsExists fs p = false ∨ ow = true) :
    ∃ fs2, db.WriteMinimalList fs p ow = (.ok (), fs2)
      ∧ fs2.files p = some (Doc.wellFormed
          { plugins := db.masterlist.plugins.map (fun plugin =>
              { name := plugin.name, group := none, loadAfter := [],
                requirements := [], incompatibilities := [], messages := [],
                tags := plugin.tags, dirtyInfo := plugin.dirtyInfo,
                cleanInfo := [], locations := [] }),
            groups := [], bashTags := [], messages := [] }) := by
  have hcheck2 : (fsExists fs p && !ow) = false := by
    cases hok with
    | inl h => simp [h]
    | inr h => simp [h]
  have hmin := foldl_addPlugin
    (fun plugin =>
      ((PluginMetadata.withNameOnly plugin.name).SetTags plugin.tags).SetDirtyInfo
        plugin.dirtyInfo)
    db.masterlist.plugins emptyMetadataList
  have hstep : db.WriteMinimalList fs p ow
      = (.ok (), (db.masterlist.plugins.foldl
          (fun acc plugin => acc.AddPlugin
            (((PluginMetadata.withNameOnly plugin.name).SetTags plugin.tags).SetDirtyInfo
              plugin.dirtyInfo))
          emptyMetadataList).Save fs p) := by
    simp [ApiDatabase.WriteMinimalList, hdir, hcheck2]
  refine ⟨_, hstep, ?_⟩
  rw [hmin]
  simp [MetadataList.Save, emptyMetadataList]
  intro a _
  rfl

/-- The document stored at the well-formed path of the witness
filesystem. -/
def mlGood : MetadataList :=
  { plugins := [], groups := [], bashTags := ["OK"], messages := [] }

/-- A concrete filesystem used by the load/save witnesses: one directory
`data` holding a well-formed and a malformed document. -/
def fs0 : FileSystem :=
  { files := fun p =>
      if p = ["data", "good.yaml"] then some (Doc.wellFormed mlGood)
      else if p = ["data", "bad.yaml"] then some Doc.malformed
      else none,
    dirs := fun p => decide (p = ["data"]) }

/-- A concrete database with empty stores, used by the load/save
witnesses. -/
def db0 : ApiDatabase :=
  { masterlist := emptyMetadataList, userlist := emptyMetadataList }

theorem loads_validate_and_replace_witness :
    (∃ s, db0.LoadMasterlist fs0 ["missing.yaml"]
        = (.error (.fileAccessError s), db0))
    ∧ (∃ s, db0.LoadMasterlist fs0 ["data", "bad.yaml"]
        = (.error (.parseError s), db0))
    ∧ db0.LoadMasterlist fs0 ["data", "good.yaml"]
        = (.ok (), { db0 with masterlist := mlGood })
    ∧ (∃ s, db0.LoadMasterlistWithPrelude fs0 ["missing.yaml"] ["data", "good.yaml"]
        = (.error (.fileAccessError s), db0))
    ∧ (∃ s, db0.LoadMasterlistWithPrelude fs0 ["data", "good.yaml"] ["missing.yaml"]
        = (.error (.fileAccessError s), db0))
    ∧ (∃ s, db0.LoadMasterlistWithPrelude fs0 ["data", "bad.yaml"] ["data", "good.yaml"]
        = (.error (.parseError s), db0))
    ∧ db0.LoadMasterlistWithPrelude fs0 ["data", "good.yaml"] ["data", "good.yaml"]
        = (.ok (), { db0 with masterlist := mlGood })
    ∧ (∃ s, db0.LoadUserlist fs0 ["missing.yaml"]
        = (.error (.fileAccessError s), db0))
    ∧ (∃ s, db0.LoadUserlist fs0 ["data", "bad.yaml"]
        = (.error (.parseError s), db0))
    ∧ db0.LoadUserlist fs0 ["data", "good.yaml"]
        = (.ok (), { db0 with userlist := mlGood }) := by
  obtain ⟨t1, t2, t3, t4, t5, t6, t7, t8, t9, t10⟩ :=
    loads_validate_and_replace fs0 db0
  exact ⟨t1 _ (by decide), t2 _ (by decide), t3 _ mlGood (by decide),
    t4 _ _ (by decide), t5 _ _ (by decide) (by decide),
    t6 _ _ (by decide) (by decide), t7 _ _ mlGood (by decide) (by decide),
    t8 _ (by decide), t9 _ (by decide), t10 _ mlGood (by decide)⟩

theorem writes_validate_before_writing_witness :
    (∃ s, db0.WriteUserMetadata fs0 ["nodir", "out.yaml"] true
        = (.error (.invalidArgument s), fs0))
    ∧ (∃ s, db0.WriteUserMetadata fs0 ["data", "bad.yaml"] false
        = (.error (.fileAccessError s), fs0))
    ∧ (∃ s, db0.WriteMinimalList fs0 ["nodir", "out.yaml"] true
        = (.error (.invalidArgument s), fs0))
    ∧ (∃ s, db0.WriteMinimalList fs0 ["data", "bad.yaml"] false
        = (.error (.fileAccessError s), fs0)) := by
  obtain ⟨w1, w2, w3, w4⟩ := writes_validate_before_writing fs0 db0
  exact ⟨w1 ["nodir", "out.yaml"] true (by decide),
    w2 ["data", "bad.yaml"] (by decide) (by decide),
    w3 ["nodir", "out.yaml"] true (by decide),
    w4 ["data", "bad.yaml"] (by decide) (by decide)⟩

theorem writeUserMetadata_load_roundtrip_witness :
    ∃ fs2, dbUser.WriteUserMetadata fs0 ["data", "new.yaml"] true = (.ok (), fs2)
      ∧ db0.LoadUserlist fs2 ["data", "new.yaml"]
          = (.ok (), { db0 with userlist := dbUser.userlist }) :=
  writeUserMetadata_load_roundtrip fs0 dbUser db0 ["data", "new.yaml"]
    (by decide) (by decide)

theorem writeMinimalList_contents_witness :
    ∃ fs2, dbPlugins.WriteMinimalList fs0 ["data", "min.yaml"] false = (.ok (), fs2)
      ∧ fs2.files ["data", "min.yaml"] = some (Doc.wellFormed
          { plugins := dbPlugins.masterlist.plugins.map (fun plugin =>
              { name := plugin.name, group := none, loadAfter := [],
                requirements := [], incompatibilities := [], messages := [],
                tags := plugin.tags, dirtyInfo := plugin.dirtyInfo,
                cleanInfo := [], locations := [] }),
            groups := [], bashTags := [], messages := [] }) :=
  writeMinimalList_contents fs0 dbPlugins ["data", "min.yaml"] false
    (by decide) (Or.inl (by decide))

end Loot
